import Mathlib

/-!
Verification of lib/portability.c (mount-list snapshot, type filter,
escape decoder, inotify-based watch multiplexer).

Strings are modelled as `List Char`; a C byte b is the character with
code point b (all values arising here are below 0xD800, so `Char.ofNat`
is exact). The NUL terminator is `nulC`. Platform-conditional code is
modelled on its Linux (`#else`) branch throughout.
-/

namespace Portability

/-- The NUL byte, used as C string terminator inside packed buffers. -/
def nulC : Char := Char.ofNat 0

/-- Embedding of `octal_deslash` (portability.c lines 95-117).
The C scans with a read pointer `s` and a write pointer `o` over the same
buffer; the functional model maps input bytes to output bytes.  A
backslash is checked against the next three bytes with `isdigit`
(decimal digits, '0'..'9'); if all three are digits the accumulated
value `((d1*8)+d2)*8+d3` is stored as one byte (truncated mod 256 by the
`char` assignment); otherwise only the backslash is copied and scanning
resumes at the next byte. -/
def octal_deslash : List Char → List Char
  | [] => []
  | '\\' :: d1 :: d2 :: d3 :: rest =>
    if d1.isDigit && d2.isDigit && d3.isDigit then
      Char.ofNat ((((d1.toNat - 48) * 8 + (d2.toNat - 48)) * 8 + (d3.toNat - 48)) % 256)
        :: octal_deslash rest
    else
      '\\' :: octal_deslash (d1 :: d2 :: d3 :: rest)
  | '\\' :: rest => '\\' :: octal_deslash rest
  | c :: rest => c :: octal_deslash rest

/-- Helper for `comma_tokens`: split a byte list at every comma,
keeping every (possibly empty) segment. -/
def splitComma : List Char → List (List Char)
  | [] => [[]]
  | ',' :: cs => [] :: splitComma cs
  | c :: cs =>
    match splitComma cs with
    | t :: ts => (c :: t) :: ts
    | [] => [[c]]

/-- Modelled from the spec: `comma_iterate` (lib/lib.c, outside src/) —
"Tokenize `spec` on commas".  The iterator yields each comma-separated
segment in order; an empty input yields no token, and a trailing comma
yields no trailing empty token (the iterator stops when the remaining
list is empty). -/
def comma_tokens (s : List Char) : List (List Char) :=
  let parts := splitComma s
  if parts.getLast? = some [] then parts.dropLast else parts

/-- Loop body of `mountlist_istype` (portability.c lines 131-144).
`excl` is true when the C `skip` variable is 0 (exclusion mode, typelist
started with "no").  In exclusion mode each token must carry the "no"
marker (`error_exit "bad typelist"` otherwise, modelled as `.error ()`),
and `strncmp(t+2, ml->type, len-2) == 0` holds exactly when the token
remainder is a byte-prefix of the NUL-free type string; a match breaks
with `skip = 1`, i.e. result false.  In inclusion mode
`!strncmp(t, ml->type, len) && !ml->type[len]` holds exactly when the
type equals the token in full; a match breaks with `skip = 0`, i.e.
result true.  Falling off the end returns `!skip`, i.e. `excl`. -/
def istypeLoop (typ : List Char) (excl : Bool) : List (List Char) → Except Unit Bool
  | [] => Except.ok excl
  | t :: ts =>
    if excl then
      if t.take 2 = ['n', 'o'] then
        if (t.drop 2).isPrefixOf typ then Except.ok false
        else istypeLoop typ excl ts
      else Except.error ()
    else
      if t = typ then Except.ok true
      else istypeLoop typ excl ts

/-- Embedding of `mountlist_istype` (portability.c lines 122-147).
`none` models a NULL typelist.  The initial mode comes from
`skip = strncmp(typelist, "no", 2)`: exclusion mode exactly when the
raw typelist begins with the two bytes "no". -/
def mountlist_istype (typ : List Char) (typelist : Option (List Char)) : Except Unit Bool :=
  match typelist with
  | none => Except.ok true
  | some tl => istypeLoop typ (decide (tl.take 2 = ['n', 'o'])) (comma_tokens tl)

/-- A record as parsed by `getmntent` (struct mntent fields used by the
code: mnt_fsname, mnt_dir, mnt_type, mnt_opts). -/
structure MntEnt where
  mnt_fsname : List Char
  mnt_dir : List Char
  mnt_type : List Char
  mnt_opts : List Char
deriving DecidableEq, Repr

/-- Embedding of `struct mtab_list`'s string storage: the flexible byte
block (the `char type[0]` tail of the allocation) plus the offsets of the
`dir`, `device` and `opts` pointers into it; `type` sits at offset 0. -/
structure mtab_list where
  buf : List Char
  dir_off : Nat
  device_off : Nat
  opts_off : Nat
deriving DecidableEq, Repr

/-- Read the NUL-terminated C string that starts at byte offset `off` of
`buf`. -/
def readCStr (buf : List Char) (off : Nat) : List Char :=
  (buf.drop off).takeWhile (fun c => c != nulC)

/-- Store the bytes of `s` into `buf` starting at offset `off`
(in-place write, buffer length unchanged when the write fits). -/
def writeAt (buf : List Char) (off : Nat) (s : List Char) : List Char :=
  buf.take off ++ s ++ buf.drop (off + s.length)

/-- In-place `octal_deslash(buf + off)`: the decoded bytes followed by
one NUL terminator replace the front of the old string; bytes between
the new terminator and the end of the old string are left as they were
(the C writes through `o` only up to the new terminator). -/
def deslashAt (buf : List Char) (off : Nat) : List Char :=
  writeAt buf off (octal_deslash (readCStr buf off) ++ [nulC])

/-- Per-record body of the Linux `xgetmountlist` loop (portability.c
lines 162-182): `xzalloc` sizes the block for the four strings plus 4
terminators; `stpcpy` packs `type`, `dir`, `device` (from `mnt_fsname`)
and `opts` back-to-back, each field starting one byte past the raw
preceding field's terminator; then `octal_deslash` rewrites the `dir`
and `device` fields in place. -/
def buildEntry (me : MntEnt) : mtab_list :=
  let d_off := me.mnt_type.length + 1
  let dev_off := d_off + me.mnt_dir.length + 1
  let o_off := dev_off + me.mnt_fsname.length + 1
  let buf0 := me.mnt_type ++ [nulC] ++ me.mnt_dir ++ [nulC] ++ me.mnt_fsname ++ [nulC]
      ++ me.mnt_opts ++ [nulC]
  let buf1 := deslashAt buf0 d_off
  let buf2 := deslashAt buf1 dev_off
  ⟨buf2, d_off, dev_off, o_off⟩

/-- Modelled from the spec: `dlist_add_nomalloc` (toybox list helpers,
outside src/) — "Prepend the finished entry to the result
(front-insertion), yielding reverse enumeration order overall",
consistent with the source's own comment "Returns a reversed list"
(line 50). -/
def dlist_add_nomalloc (lst : List mtab_list) (mt : mtab_list) : List mtab_list :=
  mt :: lst

/-- Embedding of the Linux `xgetmountlist` loop (lines 149-186) over an
already-parsed record sequence: `records` lists the `getmntent` results
in native enumeration order; each is packed by `buildEntry` and
front-inserted into the accumulating list. -/
def xgetmountlist (records : List MntEnt) : List mtab_list :=
  records.foldl (fun acc me => dlist_add_nomalloc acc (buildEntry me)) []

/-- State of `struct xnotify` (Linux branch): `max` is the fixed
capacity set by `xnotify_init`; for each of the `count` live
registrations the parallel arrays hold `fds[2*i]` (the inotify watch
descriptor), `fds[2*i+1]` (the caller-supplied fd tag) and `paths[i]`;
they are modelled as one list of triples whose length is `count`. -/
structure xnotify where
  max : Nat
  regs : List (Int × Int × List Char)
deriving DecidableEq, Repr

/-- Embedding of `xnotify_init` (Linux branch, lines 241-251): fresh
state with the given capacity and no registrations (the inotify fd
itself carries no modelled state). -/
def xnotify_init (max : Nat) : xnotify :=
  ⟨max, []⟩

/-- Result of one `xnotify_add` call: success with the new state, the
recoverable -1 rejection carrying the unchanged state, or the fatal
`error_exit "xnotify_add overflow"`. -/
inductive AddResult where
  | ok (s : xnotify)
  | rejected (s : xnotify)
  | fatal
deriving DecidableEq, Repr

/-- Embedding of the Linux `xnotify_add` (lines 253-264). `native` is
the `inotify_add_watch` result, `none` modelling -1.  Capacity is
checked first; a native refusal returns -1 leaving the live
registrations untouched (the C stores the -1 into the scratch slot
`fds[2*count]`, which lies beyond the `count` live registrations and is
never read before being overwritten); success appends the registration
and increments the count. -/
def xnotify_add (s : xnotify) (fd : Int) (path : List Char) (native : Option Int) : AddResult :=
  if s.regs.length = s.max then AddResult.fatal
  else
    match native with
    | none => AddResult.rejected s
    | some wd => AddResult.ok ⟨s.max, s.regs ++ [(wd, fd, path)]⟩

/-- One native `read(not->kq, &ev, sizeof(ev))` outcome: -1 failure, a
short byte count, or a full `struct inotify_event` carrying a watch
descriptor. -/
inductive ReadResult where
  | fail
  | short
  | event (wd : Int)
deriving DecidableEq, Repr

/-- Observable outcome of `xnotify_wait` on a finite stream of native
reads: return of `(tag, path)` to the caller, process abort via
`perror_exit`, or the stream exhausted while the loop still spins
(`pending` models the blocking read that has not produced data yet). -/
inductive WaitOutcome where
  | ret (tag : Int) (path : List Char)
  | aborts
  | pending
deriving DecidableEq, Repr

/-- The scan `for (i = 0; i < count; i++) if (ev.wd == fds[2*i])` of
`xnotify_wait`: first registration whose watch descriptor matches. -/
def findReg (regs : List (Int × Int × List Char)) (wd : Int) : Option (Int × List Char) :=
  match regs with
  | [] => none
  | (w, fd, p) :: rest => if wd = w then some (fd, p) else findReg rest wd

/-- Embedding of the Linux `xnotify_wait` (lines 266-280) driven by a
finite list of native read outcomes: a read that does not return exactly
`sizeof(struct inotify_event)` hits `perror_exit("inotify")`; an event
whose descriptor matches registration `i` returns `fds[2*i+1]` and
`paths[i]`; an unmatched event loops to the next read. -/
def xnotify_wait (s : xnotify) : List ReadResult → WaitOutcome
  | [] => WaitOutcome.pending
  | ReadResult.fail :: _ => WaitOutcome.aborts
  | ReadResult.short :: _ => WaitOutcome.aborts
  | ReadResult.event wd :: rest =>
    match findReg s.regs wd with
    | some (fd, p) => WaitOutcome.ret fd p
    | none => xnotify_wait s rest

/-- `rest` starts with three decimal digits (the condition under which
the C escape loop reaches `i == 4`). -/
def threeDigits : List Char → Bool
  | d1 :: d2 :: d3 :: _ => d1.isDigit && d2.isDigit && d3.isDigit
  | _ => false

/-- Leftover bytes of a decoded-in-place field: what remains of the old
string-plus-terminator beyond the decoded string and its new
terminator. -/
def gap (s : List Char) : List Char :=
  (s ++ [nulC]).drop ((octal_deslash s).length + 1)

/-- Closed form of the byte block `buildEntry` produces: the four
fields back-to-back at raw-length offsets, the dir and device fields
decoded in place with their leftover bytes (`gap`) still sitting
between the new terminator and the next field. -/
def packedShape (me : MntEnt) : List Char :=
  me.mnt_type ++ nulC :: (octal_deslash me.mnt_dir ++ nulC :: (gap me.mnt_dir
    ++ (octal_deslash me.mnt_fsname ++ nulC :: (gap me.mnt_fsname
      ++ (me.mnt_opts ++ [nulC])))))

/-- Concrete `getmntent` record whose `mnt_dir` carries one octal
escape, used to exhibit the raw-offset packing. -/
def me0 : MntEnt :=
  ⟨"/dev/sda1".toList, "a\\040b".toList, "ext4".toList, "rw".toList⟩

/-- Concrete watcher state: capacity 3, one live registration. -/
def s9 : xnotify :=
  ⟨3, [(1, 5, "a".toList)]⟩

end Portability

deriving instance DecidableEq for Except

namespace Portability

/-- In exclusion mode, when every token carries the "no" marker, the
scan returns true exactly when no token remainder is a byte-prefix of
the entry type. -/
theorem istypeLoop_excl (typ : List Char) (ts : List (List Char))
    (h : ∀ t ∈ ts, t.take 2 = ['n', 'o']) :
    istypeLoop typ true ts =
      Except.ok (ts.all (fun t => !(t.drop 2).isPrefixOf typ)) := by
  induction ts with
  | nil => simp [istypeLoop]
  | cons t ts ih =>
    have ht : t.take 2 = ['n', 'o'] := h t (List.mem_cons_self t ts)
    have hts : ∀ u ∈ ts, u.take 2 = ['n', 'o'] := fun u hu => h u (List.mem_cons_of_mem t hu)
    by_cases hp : (t.drop 2).isPrefixOf typ = true
    · simp [istypeLoop, ht, hp]
    · simp [istypeLoop, ht, hp, ih hts]

/-- In inclusion mode the scan never raises the malformed-typelist
error: it is a pure membership test. -/
theorem istypeLoop_incl (typ : List Char) (ts : List (List Char)) :
    istypeLoop typ false ts = Except.ok (decide (typ ∈ ts)) := by
  induction ts with
  | nil => simp [istypeLoop]
  | cons t ts ih =>
    by_cases he : t = typ
    · simp [istypeLoop, he]
    · simp [istypeLoop, he, ih, Ne.symm he]

/-- In exclusion mode, reaching an unmarked token (every earlier token
marked and non-matching) raises the error. -/
theorem istypeLoop_excl_error (typ : List Char) (ts1 : List (List Char)) (t : List Char)
    (ts2 : List (List Char)) (ht : ¬ t.take 2 = ['n', 'o'])
    (h1 : ∀ u ∈ ts1, u.take 2 = ['n', 'o'] ∧ ¬ (u.drop 2).isPrefixOf typ = true) :
    istypeLoop typ true (ts1 ++ t :: ts2) = Except.error () := by
  induction ts1 with
  | nil => simp [istypeLoop, ht]
  | cons u ts1 ih =>
    have hu := h1 u (List.mem_cons_self u ts1)
    have h1' : ∀ v ∈ ts1, v.take 2 = ['n', 'o'] ∧ ¬ (v.drop 2).isPrefixOf typ = true :=
      fun v hv => h1 v (List.mem_cons_of_mem u hv)
    simp [istypeLoop, hu.1, hu.2, ih h1']

/-- Claim C1 counterexample: the spec "noext4" is in exclusion form
(its one token carries the marker) and the entry type "ext4x" equals no
token remainder, yet `mountlist_istype` returns false — the code's
`strncmp(t+2, ml->type, len-2)` is a prefix match, not a full-length
match. -/
theorem C1_counterexample :
    (∀ t ∈ comma_tokens "noext4".toList,
        t.take 2 = ['n', 'o'] ∧ t.drop 2 ≠ "ext4x".toList)
    ∧ mountlist_istype "ext4x".toList (some "noext4".toList) = Except.ok false := by
  decide

/-- Claim C1 amended: for an exclusion-form spec (the typelist starts
with the marker and every token carries it), `mountlist_istype` returns
true iff no token's remainder after the marker is a byte-prefix of the
entry type (the concrete examples of the claim are unchanged). -/
theorem C1_amended (typ tl : List Char)
    (h0 : tl.take 2 = ['n', 'o'])
    (h2 : ∀ t ∈ comma_tokens tl, t.take 2 = ['n', 'o']) :
    mountlist_istype typ (some tl) =
      Except.ok ((comma_tokens tl).all (fun t => !(t.drop 2).isPrefixOf typ)) := by
  have hb : decide (tl.take 2 = ['n', 'o']) = true := by simp [h0]
  simp only [mountlist_istype, hb]
  exact istypeLoop_excl typ (comma_tokens tl) h2

/-- Witness for C1 amended: evaluated on the claim's own example. -/
theorem C1_amended_witness :
    mountlist_istype "tmpfs".toList (some "noext4,novfat".toList) = Except.ok true := by
  have h := C1_amended "tmpfs".toList "noext4,novfat".toList (by decide) (by decide)
  rw [h]
  decide

/-- Claim C2 counterexample: the spec "ext4,novfat" mixes an unmarked
first token with a marked second token, yet with entry type "tmpfs" the
call returns `ok false` instead of failing — when the first token lacks
the marker the code treats every token (marked or not) as an ordinary
inclusion token and never raises the error. -/
theorem C2_counterexample :
    (comma_tokens "ext4,novfat".toList).map (fun t => t.take 2) =
        ["ex".toList, "no".toList]
    ∧ mountlist_istype "tmpfs".toList (some "ext4,novfat".toList) = Except.ok false
    ∧ mountlist_istype "novfat".toList (some "ext4,novfat".toList) = Except.ok true := by
  decide

/-- Claim C2 amended: when the first token lacks the marker the whole
spec is an inclusion list and no input ever raises the error; the
malformed-typelist error is raised exactly when the typelist starts
with the marker and the scan reaches an unmarked token, every earlier
token being marked and non-matching. -/
theorem C2_amended (typ tl : List Char) :
    (¬ tl.take 2 = ['n', 'o'] → ∃ b, mountlist_istype typ (some tl) = Except.ok b)
    ∧ (∀ ts1 t ts2, tl.take 2 = ['n', 'o'] →
        comma_tokens tl = ts1 ++ t :: ts2 →
        ¬ t.take 2 = ['n', 'o'] →
        (∀ u ∈ ts1, u.take 2 = ['n', 'o'] ∧ ¬ (u.drop 2).isPrefixOf typ = true) →
        mountlist_istype typ (some tl) = Except.error ()) := by
  constructor
  · intro h0
    refine ⟨decide (typ ∈ comma_tokens tl), ?_⟩
    simp only [mountlist_istype, h0]
    simpa using istypeLoop_incl typ (comma_tokens tl)
  · intro ts1 t ts2 h0 hsplit ht h1
    simp only [mountlist_istype, h0, hsplit]
    simpa using istypeLoop_excl_error typ ts1 t ts2 ht h1

/-- Witness for C2 amended: the error does fire when the marked token
comes first and no exclusion match precedes the unmarked token. -/
theorem C2_amended_witness :
    mountlist_istype "tmpfs".toList (some "novfat,ext4".toList) = Except.error () :=
  (C2_amended "tmpfs".toList "novfat,ext4".toList).2 ["novfat".toList] "ext4".toList []
    (by decide) (by decide) (by decide) (by decide)

/-- The decoder never lengthens its input (the write pointer never
passes the read pointer). -/
theorem octal_deslash_length (s : List Char) : (octal_deslash s).length ≤ s.length := by
  induction s using octal_deslash.induct with
  | case1 => simp [octal_deslash]
  | case2 d1 d2 d3 rest h ih =>
    simp only [octal_deslash, if_pos h, List.length_cons]
    omega
  | case3 d1 d2 d3 rest h ih =>
    simp only [octal_deslash, if_neg h, List.length_cons] at *
    omega
  | case4 rest h ih =>
    simp only [octal_deslash, List.length_cons]
    omega
  | case5 c rest h1 h2 ih =>
    simp only [octal_deslash, List.length_cons]
    omega

/-- Claim C3 counterexample: '8' and '9' are not octal digits, so the
claim leaves "\089" untouched; the code checks the three bytes with
`isdigit` and collapses the sequence to the byte
`((0*8)+8)*8+9 = 73` ('I'). -/
theorem C3_counterexample :
    octal_deslash "\\089".toList = [Char.ofNat 73]
    ∧ octal_deslash "\\089".toList ≠ "\\089".toList
    ∧ ('7' : Char) < '8' := by
  decide

/-- Claim C3 amended: a backslash followed by exactly three decimal
digits (checked with `isdigit`, so '8' and '9' qualify) collapses to
the single byte `((d1*8)+d2)*8+d3 mod 256` (digits accumulated in base
8); a backslash not followed by three decimal digits — including
truncation at the end of the string — is copied verbatim and scanning
resumes at the next byte; the decoder never lengthens its input, and
`decode("a\040b") = "a b"`. -/
theorem C3_amended :
    (∀ d1 d2 d3 rest, d1.isDigit = true → d2.isDigit = true → d3.isDigit = true →
      octal_deslash ('\\' :: d1 :: d2 :: d3 :: rest) =
        Char.ofNat ((((d1.toNat - 48) * 8 + (d2.toNat - 48)) * 8 + (d3.toNat - 48)) % 256)
          :: octal_deslash rest)
    ∧ (∀ rest, threeDigits rest = false →
      octal_deslash ('\\' :: rest) = '\\' :: octal_deslash rest)
    ∧ octal_deslash "a\\040b".toList = "a b".toList
    ∧ (∀ s, (octal_deslash s).length ≤ s.length) := by
  refine ⟨?_, ?_, by decide, ?_⟩
  · intro d1 d2 d3 rest h1 h2 h3
    simp [octal_deslash, h1, h2, h3]
  · intro rest h
    match rest with
    | [] => rfl
    | [a] => rfl
    | [a, b] => rfl
    | a :: b :: c :: rest' =>
      simp only [threeDigits] at h
      simp [octal_deslash, h]
  · exact octal_deslash_length

/-- Witness for C3 amended: applied to the digits '0','8','9'. -/
theorem C3_amended_witness :
    octal_deslash ('\\' :: '0' :: '8' :: '9' :: []) =
      Char.ofNat ((((('0' : Char).toNat - 48) * 8 + (('8' : Char).toNat - 48)) * 8
        + (('9' : Char).toNat - 48)) % 256) :: octal_deslash [] :=
  C3_amended.1 '0' '8' '9' [] (by decide) (by decide) (by decide)

/-- Claim C4 counterexample: on the empty (non-null) typelist the code
computes `skip = strncmp("", "no", 2) != 0`, iterates over no token and
returns `!skip`, i.e. false — not true as claimed. -/
theorem C4_counterexample :
    mountlist_istype "ext4".toList (some []) = Except.ok false := by
  decide

/-- Claim C4 amended: `mountlist_istype` returns true for every entry
when the typelist is absent (NULL); when the typelist is the empty
string it returns false for every entry (an empty inclusion list that
nothing matches). -/
theorem C4_amended (typ : List Char) :
    mountlist_istype typ none = Except.ok true
    ∧ mountlist_istype typ (some []) = Except.ok false := by
  exact ⟨rfl, rfl⟩

/-- `takeWhile` up to the terminator recovers a stored NUL-free
string. -/
theorem takeWhile_nul (s post : List Char) (h : nulC ∉ s) :
    (s ++ nulC :: post).takeWhile (fun c => c != nulC) = s := by
  induction s with
  | nil => simp
  | cons a s ih =>
    have ha : a ≠ nulC := fun he => h (by simp [he])
    have h' : nulC ∉ s := fun hm => h (List.mem_cons_of_mem a hm)
    simp [List.takeWhile_cons, ha, ih h']

/-- Reading the C string at the offset where a NUL-free string `s` is
stored (followed by its terminator) returns exactly `s`. -/
theorem readCStr_at (buf pre s post : List Char) (off : Nat)
    (hbuf : buf = pre ++ s ++ nulC :: post) (hoff : off = pre.length) (h : nulC ∉ s) :
    readCStr buf off = s := by
  subst hbuf hoff
  unfold readCStr
  rw [List.append_assoc, List.drop_left]
  exact takeWhile_nul s post h

/-- Size accounting for the in-place decode: decoded string, its
terminator and the leftover bytes fill exactly the old string plus
terminator. -/
theorem gap_length (s : List Char) :
    (octal_deslash s).length + 1 + (gap s).length = s.length + 1 := by
  have h := octal_deslash_length s
  unfold gap
  rw [List.length_drop]
  simp only [List.length_append, List.length_cons, List.length_nil]
  omega

/-- Effect of the in-place decode of the field stored at offset
`pre.length`: the decoded bytes and a terminator overwrite the front of
the field, the leftover `gap` bytes and everything after the field stay
put. -/
theorem deslashAt_at (buf pre s post : List Char) (off : Nat)
    (hbuf : buf = pre ++ s ++ nulC :: post) (hoff : off = pre.length) (h : nulC ∉ s) :
    deslashAt buf off = pre ++ octal_deslash s ++ nulC :: (gap s ++ post) := by
  have hr : readCStr buf off = s := readCStr_at buf pre s post off hbuf hoff h
  subst hbuf hoff
  unfold deslashAt writeAt
  rw [hr]
  have hassoc : pre ++ s ++ nulC :: post = pre ++ (s ++ nulC :: post) := by
    simp [List.append_assoc]
  rw [hassoc]
  have t1 : List.take pre.length (pre ++ (s ++ nulC :: post)) = pre := List.take_left pre _
  have t2 : List.drop (pre.length + (octal_deslash s ++ [nulC]).length)
      (pre ++ (s ++ nulC :: post))
      = List.drop ((octal_deslash s ++ [nulC]).length) (s ++ nulC :: post) :=
    List.drop_append _
  have t3 : s ++ nulC :: post = (s ++ [nulC]) ++ post := by simp
  have t4 : List.drop ((octal_deslash s ++ [nulC]).length) ((s ++ [nulC]) ++ post)
      = List.drop ((octal_deslash s ++ [nulC]).length) (s ++ [nulC]) ++ post := by
    apply List.drop_append_of_le_length
    have := octal_deslash_length s
    simp only [List.length_append, List.length_cons, List.length_nil]
    omega
  have t5 : List.drop ((octal_deslash s ++ [nulC]).length) (s ++ [nulC]) = gap s := by
    unfold gap
    simp [List.length_append]
  rw [t1, t2, t3, t4, t5]
  simp

/-- The block `buildEntry` produces, in closed form. -/
theorem buildEntry_buf (me : MntEnt) (hd : nulC ∉ me.mnt_dir) (hf : nulC ∉ me.mnt_fsname) :
    (buildEntry me).buf = packedShape me := by
  simp only [buildEntry]
  have h1 := deslashAt_at
    (me.mnt_type ++ [nulC] ++ me.mnt_dir ++ [nulC] ++ me.mnt_fsname ++ [nulC]
      ++ me.mnt_opts ++ [nulC])
    (me.mnt_type ++ [nulC]) me.mnt_dir
    (me.mnt_fsname ++ nulC :: (me.mnt_opts ++ [nulC]))
    (me.mnt_type.length + 1)
    (by simp)
    (by simp)
    hd
  rw [h1]
  have h2 := deslashAt_at
    (me.mnt_type ++ [nulC] ++ octal_deslash me.mnt_dir ++ nulC ::
      (gap me.mnt_dir ++ (me.mnt_fsname ++ nulC :: (me.mnt_opts ++ [nulC]))))
    (me.mnt_type ++ nulC :: (octal_deslash me.mnt_dir ++ nulC :: gap me.mnt_dir))
    me.mnt_fsname
    (me.mnt_opts ++ [nulC])
    (me.mnt_type.length + 1 + me.mnt_dir.length + 1)
    (by simp)
    (by
      have := gap_length me.mnt_dir
      simp only [List.length_append, List.length_cons]
      omega)
    hf
  have h1' : (me.mnt_type ++ [nulC]) ++ octal_deslash me.mnt_dir ++ nulC ::
      (gap me.mnt_dir ++ (me.mnt_fsname ++ nulC :: (me.mnt_opts ++ [nulC])))
      = me.mnt_type ++ [nulC] ++ octal_deslash me.mnt_dir ++ nulC ::
        (gap me.mnt_dir ++ (me.mnt_fsname ++ nulC :: (me.mnt_opts ++ [nulC]))) := by
    simp [List.append_assoc]
  rw [h1', h2]
  unfold packedShape
  simp [List.append_assoc]

/-- A NUL byte sits at index `A.length` of `A ++ nulC :: B`. -/
theorem getElem_nul (A B : List Char) (n : Nat) (h : n = A.length) :
    (A ++ nulC :: B)[n]? = some nulC := by
  subst h
  rw [List.getElem?_append_right (Nat.le_refl _)]
  simp

/-- Claim C5 counterexample: for a record whose `mnt_dir` is "a\040b",
the stored dir field decodes to "a b" (3 bytes) but the device field
begins at `dir_off + 7`, not one byte past the decoded terminator at
`dir_off + 4`: offsets are computed from the raw, not decoded,
lengths. -/
theorem C5_counterexample :
    readCStr (buildEntry me0).buf (buildEntry me0).dir_off = "a b".toList
    ∧ (buildEntry me0).device_off ≠
        (buildEntry me0).dir_off
          + (readCStr (buildEntry me0).buf (buildEntry me0).dir_off).length + 1 := by
  decide

/-- Field offsets and field contents of a packed entry: offsets come
from the raw lengths, the stored dir and device strings are the decoded
ones. -/
theorem buildEntry_fields (me : MntEnt) (ht : nulC ∉ me.mnt_type) (hd : nulC ∉ me.mnt_dir)
    (hf : nulC ∉ me.mnt_fsname) (ho : nulC ∉ me.mnt_opts)
    (hd2 : nulC ∉ octal_deslash me.mnt_dir) (hf2 : nulC ∉ octal_deslash me.mnt_fsname) :
    (buildEntry me).dir_off = me.mnt_type.length + 1
    ∧ (buildEntry me).device_off = (buildEntry me).dir_off + me.mnt_dir.length + 1
    ∧ (buildEntry me).opts_off = (buildEntry me).device_off + me.mnt_fsname.length + 1
    ∧ readCStr (buildEntry me).buf 0 = me.mnt_type
    ∧ readCStr (buildEntry me).buf (buildEntry me).dir_off = octal_deslash me.mnt_dir
    ∧ readCStr (buildEntry me).buf (buildEntry me).device_off = octal_deslash me.mnt_fsname
    ∧ readCStr (buildEntry me).buf (buildEntry me).opts_off = me.mnt_opts := by
  have hb := buildEntry_buf me hd hf
  have hgd := gap_length me.mnt_dir
  have hgf := gap_length me.mnt_fsname
  refine ⟨rfl, rfl, rfl, ?_, ?_, ?_, ?_⟩
  · rw [hb]
    exact readCStr_at _ [] me.mnt_type
      (octal_deslash me.mnt_dir ++ nulC :: (gap me.mnt_dir
        ++ (octal_deslash me.mnt_fsname ++ nulC :: (gap me.mnt_fsname
          ++ (me.mnt_opts ++ [nulC])))))
      0 (by simp [packedShape]) rfl ht
  · rw [hb]
    exact readCStr_at _ (me.mnt_type ++ [nulC]) (octal_deslash me.mnt_dir)
      (gap me.mnt_dir ++ (octal_deslash me.mnt_fsname ++ nulC :: (gap me.mnt_fsname
        ++ (me.mnt_opts ++ [nulC]))))
      (buildEntry me).dir_off
      (by simp [packedShape, List.append_assoc]) (by simp [buildEntry]) hd2
  · rw [hb]
    exact readCStr_at _
      (me.mnt_type ++ nulC :: (octal_deslash me.mnt_dir ++ nulC :: gap me.mnt_dir))
      (octal_deslash me.mnt_fsname)
      (gap me.mnt_fsname ++ (me.mnt_opts ++ [nulC]))
      (buildEntry me).device_off
      (by simp [packedShape, List.append_assoc])
      (by
        simp only [buildEntry, List.length_append, List.length_cons]
        omega)
      hf2
  · rw [hb]
    exact readCStr_at _
      (me.mnt_type ++ nulC :: (octal_deslash me.mnt_dir ++ nulC :: (gap me.mnt_dir
        ++ (octal_deslash me.mnt_fsname ++ nulC :: gap me.mnt_fsname))))
      me.mnt_opts []
      (buildEntry me).opts_off
      (by simp [packedShape, List.append_assoc])
      (by
        simp only [buildEntry, List.length_append, List.length_cons]
        omega)
      ho

/-- Claim C5 amended: the four fields are packed back-to-back with each
field's starting offset computed from the raw (pre-decode) length of
the preceding field; the EscapeDecoder is then applied in place to the
stored dir and device fields only, so the strings read back at those
offsets are the decoded ones, and when a field contained escapes the
following field starts beyond (not exactly one byte past) the decoded
field's terminator. -/
theorem C5_amended (me : MntEnt) (ht : nulC ∉ me.mnt_type) (hd : nulC ∉ me.mnt_dir)
    (hf : nulC ∉ me.mnt_fsname) (ho : nulC ∉ me.mnt_opts)
    (hd2 : nulC ∉ octal_deslash me.mnt_dir) (hf2 : nulC ∉ octal_deslash me.mnt_fsname) :
    (buildEntry me).dir_off = me.mnt_type.length + 1
    ∧ (buildEntry me).device_off = (buildEntry me).dir_off + me.mnt_dir.length + 1
    ∧ (buildEntry me).opts_off = (buildEntry me).device_off + me.mnt_fsname.length + 1
    ∧ readCStr (buildEntry me).buf 0 = me.mnt_type
    ∧ readCStr (buildEntry me).buf (buildEntry me).dir_off = octal_deslash me.mnt_dir
    ∧ readCStr (buildEntry me).buf (buildEntry me).device_off = octal_deslash me.mnt_fsname
    ∧ readCStr (buildEntry me).buf (buildEntry me).opts_off = me.mnt_opts :=
  buildEntry_fields me ht hd hf ho hd2 hf2

/-- Witness for C5 amended: the packing facts evaluated on a record
whose dir field carries an escape. -/
theorem C5_amended_witness :
    readCStr (buildEntry me0).buf (buildEntry me0).dir_off = octal_deslash me0.mnt_dir :=
  (C5_amended me0 (by decide) (by decide) (by decide) (by decide) (by decide)
    (by decide)).2.2.2.2.1

/-- Claim C8 confirmed: the four strings of an entry sit at strictly
increasing offsets of the one block (sized for the four raw fields plus
four terminators), each string followed immediately by its own NUL
terminator, and each string together with its terminator lies inside
its own region, ending at or before the next field's offset — the four
regions never overlap. -/
theorem C8 (me : MntEnt) (ht : nulC ∉ me.mnt_type) (hd : nulC ∉ me.mnt_dir)
    (hf : nulC ∉ me.mnt_fsname) (ho : nulC ∉ me.mnt_opts)
    (hd2 : nulC ∉ octal_deslash me.mnt_dir) (hf2 : nulC ∉ octal_deslash me.mnt_fsname) :
    0 < (buildEntry me).dir_off
    ∧ (buildEntry me).dir_off < (buildEntry me).device_off
    ∧ (buildEntry me).device_off < (buildEntry me).opts_off
    ∧ (buildEntry me).opts_off < (buildEntry me).buf.length
    ∧ (buildEntry me).buf.length
        = me.mnt_type.length + me.mnt_dir.length + me.mnt_fsname.length
          + me.mnt_opts.length + 4
    ∧ (readCStr (buildEntry me).buf 0).length + 1 ≤ (buildEntry me).dir_off
    ∧ (buildEntry me).dir_off
        + (readCStr (buildEntry me).buf (buildEntry me).dir_off).length + 1
        ≤ (buildEntry me).device_off
    ∧ (buildEntry me).device_off
        + (readCStr (buildEntry me).buf (buildEntry me).device_off).length + 1
        ≤ (buildEntry me).opts_off
    ∧ (buildEntry me).opts_off
        + (readCStr (buildEntry me).buf (buildEntry me).opts_off).length + 1
        = (buildEntry me).buf.length
    ∧ (buildEntry me).buf[(readCStr (buildEntry me).buf 0).length]? = some nulC
    ∧ (buildEntry me).buf[(buildEntry me).dir_off
        + (readCStr (buildEntry me).buf (buildEntry me).dir_off).length]? = some nulC
    ∧ (buildEntry me).buf[(buildEntry me).device_off
        + (readCStr (buildEntry me).buf (buildEntry me).device_off).length]? = some nulC
    ∧ (buildEntry me).buf[(buildEntry me).opts_off
        + (readCStr (buildEntry me).buf (buildEntry me).opts_off).length]? = some nulC := by
  obtain ⟨e1, e2, e3, r0, r1, r2, r3⟩ := buildEntry_fields me ht hd hf ho hd2 hf2
  have hb := buildEntry_buf me hd hf
  have hgd := gap_length me.mnt_dir
  have hgf := gap_length me.mnt_fsname
  have hdd := octal_deslash_length me.mnt_dir
  have hdf := octal_deslash_length me.mnt_fsname
  have hlen : (buildEntry me).buf.length
      = me.mnt_type.length + me.mnt_dir.length + me.mnt_fsname.length
        + me.mnt_opts.length + 4 := by
    rw [hb]
    simp only [packedShape, List.length_append, List.length_cons, List.length_nil]
    omega
  refine ⟨?_, ?_, ?_, ?_, hlen, ?_, ?_, ?_, ?_, ?_, ?_, ?_, ?_⟩
  · rw [e1]; omega
  · rw [e2]; omega
  · rw [e3]; omega
  · rw [hlen, e3, e2, e1]; omega
  · rw [r0, e1]
  · rw [r1, e2]
    omega
  · rw [r2, e3]
    omega
  · rw [r3, hlen, e3, e2, e1]
    omega
  · rw [r0, hb]
    exact getElem_nul me.mnt_type _ _ rfl
  · rw [r1, hb, e1]
    have hsh : packedShape me
        = (me.mnt_type ++ nulC :: octal_deslash me.mnt_dir) ++ nulC :: (gap me.mnt_dir
          ++ (octal_deslash me.mnt_fsname ++ nulC :: (gap me.mnt_fsname
            ++ (me.mnt_opts ++ [nulC])))) := by
      simp [packedShape, List.append_assoc]
    rw [hsh]
    apply getElem_nul
    simp only [List.length_append, List.length_cons]
    omega
  · rw [r2, hb, e2, e1]
    have hsh : packedShape me
        = (me.mnt_type ++ nulC :: (octal_deslash me.mnt_dir ++ nulC :: (gap me.mnt_dir
            ++ octal_deslash me.mnt_fsname))) ++ nulC :: (gap me.mnt_fsname
          ++ (me.mnt_opts ++ [nulC])) := by
      simp [packedShape, List.append_assoc]
    rw [hsh]
    apply getElem_nul
    simp only [List.length_append, List.length_cons]
    omega
  · rw [r3, hb, e3, e2, e1]
    have hsh : packedShape me
        = (me.mnt_type ++ nulC :: (octal_deslash me.mnt_dir ++ nulC :: (gap me.mnt_dir
            ++ (octal_deslash me.mnt_fsname ++ nulC :: (gap me.mnt_fsname
              ++ me.mnt_opts))))) ++ nulC :: [] := by
      simp [packedShape, List.append_assoc]
    rw [hsh]
    apply getElem_nul
    simp only [List.length_append, List.length_cons, List.length_nil]
    omega

/-- Witness for C8: the size identity evaluated on a record whose dir
field carries an escape. -/
theorem C8_witness :
    (buildEntry me0).buf.length
      = me0.mnt_type.length + me0.mnt_dir.length + me0.mnt_fsname.length
        + me0.mnt_opts.length + 4 :=
  (C8 me0 (by decide) (by decide) (by decide) (by decide) (by decide)
    (by decide)).2.2.2.2.1

/-- Front-insertion fold builds the reversed map. -/
theorem foldl_front (records : List MntEnt) (acc : List mtab_list) :
    records.foldl (fun a me => dlist_add_nomalloc a (buildEntry me)) acc
      = (records.map buildEntry).reverse ++ acc := by
  induction records generalizing acc with
  | nil => simp
  | cons me rs ih =>
    simp only [List.foldl_cons, dlist_add_nomalloc] at *
    rw [ih]
    simp

/-- Claim C6 confirmed: for a table of N records the builder returns
exactly N entries, in the reverse of native enumeration order, each
finished entry having been front-inserted. -/
theorem C6 (records : List MntEnt) :
    (xgetmountlist records).length = records.length
    ∧ xgetmountlist records = (records.map buildEntry).reverse := by
  have h := foldl_front records []
  constructor
  · simp [xgetmountlist, h]
  · simpa [xgetmountlist] using h

/-- Claim C7 confirmed: a fresh multiplexer of capacity `m` holds no
registrations; an `add` performed when the count already equals the
capacity fails fatally before touching the native layer or the state;
a successful `add` grows the count by exactly one and keeps the
capacity, so a count that respected the capacity still respects it
after any `add`. -/
theorem C7 (m : Nat) (s : xnotify) (fd : Int) (path : List Char) (native : Option Int) :
    (xnotify_init m).regs.length = 0
    ∧ (xnotify_init m).max = m
    ∧ (s.regs.length = s.max → xnotify_add s fd path native = AddResult.fatal)
    ∧ (∀ s', xnotify_add s fd path native = AddResult.ok s' →
        s'.regs.length = s.regs.length + 1 ∧ s'.max = s.max)
    ∧ (s.regs.length ≤ s.max →
        ∀ s', xnotify_add s fd path native = AddResult.ok s' → s'.regs.length ≤ s.max) := by
  refine ⟨rfl, rfl, ?_, ?_, ?_⟩
  · intro h
    simp [xnotify_add, h]
  · intro s' h
    by_cases hc : s.regs.length = s.max
    · simp [xnotify_add, hc] at h
    · cases native with
      | none => simp [xnotify_add, hc] at h
      | some wd =>
        simp only [xnotify_add, hc, if_false] at h
        cases h
        simp
  · intro hle s' h
    by_cases hc : s.regs.length = s.max
    · simp [xnotify_add, hc] at h
    · cases native with
      | none => simp [xnotify_add, hc] at h
      | some wd =>
        simp only [xnotify_add, hc, if_false] at h
        cases h
        simp only [List.length_append, List.length_cons, List.length_nil]
        omega

/-- Witness for C7: a fourth `add` on a multiplexer of capacity 3 that
already holds 3 registrations is rejected fatally. -/
theorem C7_witness :
    xnotify_add
      ⟨3, [(1, 5, "a".toList), (2, 6, "b".toList), (3, 7, "c".toList)]⟩
      8 "d".toList (some 4) = AddResult.fatal :=
  (C7 3 ⟨3, [(1, 5, "a".toList), (2, 6, "b".toList), (3, 7, "c".toList)]⟩
    8 "d".toList (some 4)).2.2.1 rfl

/-- Claim C9 counterexample: on the inotify backend a short or failed
native read is not retried — `if (sizeof(ev) != read(...))
perror_exit("inotify")` aborts the process. -/
theorem C9_counterexample :
    xnotify_wait s9 [ReadResult.short] = WaitOutcome.aborts
    ∧ xnotify_wait s9 [ReadResult.fail] = WaitOutcome.aborts := by
  exact ⟨rfl, rfl⟩

/-- Claim C9 amended: on the inotify backend, a full-size native read
whose watch identifier matches no current registration is swallowed and
the wait loops to read again; a matching event returns that
registration's tag and path; but a native read that is short or fails
aborts the process fatally instead of being retried. -/
theorem C9_amended (s : xnotify) (wd : Int) (rest : List ReadResult) :
    (findReg s.regs wd = none →
      xnotify_wait s (ReadResult.event wd :: rest) = xnotify_wait s rest)
    ∧ (∀ tag p, findReg s.regs wd = some (tag, p) →
      xnotify_wait s (ReadResult.event wd :: rest) = WaitOutcome.ret tag p)
    ∧ xnotify_wait s (ReadResult.fail :: rest) = WaitOutcome.aborts
    ∧ xnotify_wait s (ReadResult.short :: rest) = WaitOutcome.aborts := by
  refine ⟨?_, ?_, rfl, rfl⟩
  · intro h
    simp [xnotify_wait, h]
  · intro tag p h
    simp [xnotify_wait, h]

/-- Witness for C9 amended: an event for unregistered descriptor 2 is
swallowed and the loop goes back to reading. -/
theorem C9_amended_witness :
    xnotify_wait s9 [ReadResult.event 2] = xnotify_wait s9 [] :=
  (C9_amended s9 2 []).1 rfl

/-- Claim C10 confirmed: when the native layer refuses the watch and
the capacity check passed, `add` returns the recoverable rejection with
the multiplexer state exactly as it was — count and every stored
registration unchanged, so subsequent `add` and `wait` calls see the
state the rejected call found. -/
theorem C10 (s : xnotify) (fd : Int) (path : List Char) (h : s.regs.length < s.max) :
    xnotify_add s fd path none = AddResult.rejected s := by
  have hne : ¬ s.regs.length = s.max := Nat.ne_of_lt h
  simp [xnotify_add, hne]

/-- Witness for C10: a rejected add on a capacity-3 multiplexer holding
one registration returns that same state. -/
theorem C10_witness :
    xnotify_add s9 8 "d".toList none = AddResult.rejected s9 :=
  C10 s9 8 "d".toList (by decide)

end Portability